import Mathlib

/-!
Shallow embedding of `src/app.py` (a Streamlit dashboard that reads a local
CSV/XLSX score sheet for six fixed teams, normalises it into a canonical
six-row table, and renders a team-detail view, a ranked leaderboard and the
full table).

Modelling choices:
* a pandas cell of an activity column is either a parseable numeric value
  (`Cell.num`, a rational, since spreadsheet cells may be fractional) or a
  value `pd.to_numeric(errors="coerce")` turns into NaN (`Cell.nan`:
  missing cell or unparseable text);
* the team-identifier cell is modelled directly as the string that
  `astype(str)` produces for it;
* a raw table records which of the expected columns are present
  (`hasGrupo`, `hasAct`) and the cell contents of every row;
* `int(x)` / `.astype(int)` in Python truncate toward zero; they are
  modelled by `pyInt` below via `Int.tdiv`;
* `DataFrame.sort_values(..., ascending=False)` on this always-six-row
  column is stable (numpy argsorts small arrays with insertion sort and
  pandas reverses both before and after the ascending argsort), so the
  leaderboard sort is embedded as a stable descending insertion sort.
-/

/-- The six team codes, in canonical display order (`TEAMS` in `app.py`). -/
def TEAMS : List String := ["FV1", "FV2", "FV3", "FV4", "FV5", "FV6"]

/-- The five activity labels, in source order (`ACTIVITIES` in `app.py`). -/
def ACTIVITIES : List String :=
  ["Fecha 1 y 2 (01-05/09)", "Fecha 3 (08/09)", "Fecha 4 (12/09)",
   "Fecha 5 (15/09)", "Fecha 6 (19/09)"]

/-- The candidate data files (`CANDIDATE_PATHS` in `app.py`), CSV preferred. -/
def CANDIDATE_PATHS : List String := ["puntajes.csv", "puntajes.xlsx"]

/-- One raw cell of an activity column: a numeric value, or anything that
`pd.to_numeric(errors="coerce")` maps to NaN (missing or unparseable). -/
inductive Cell where
  | num (q : ℚ)
  | nan
deriving DecidableEq

/-- `pd.to_numeric(col, errors="coerce").fillna(0)` applied to one cell:
numeric values pass through, everything else becomes 0. -/
def Cell.toNum : Cell → ℚ
  | .num q => q
  | .nan => 0

/-- One row of the raw input table: the team-identifier cell (as the string
`astype(str)` yields for it) and the five activity cells. -/
structure RawRow where
  grupo : String
  acts : Fin 5 → Cell

/-- A raw input table as parsed from the file: which expected columns exist,
and the rows.  When `hasGrupo` is false the code inserts a `Grupo` column
holding `""`; when `hasAct i` is false it inserts that activity column
holding `0`.  Columns outside the expected set are dropped, so they are not
modelled. -/
structure RawTable where
  hasGrupo : Bool
  hasAct : Fin 5 → Bool
  rows : List RawRow

/-- Python `str.strip()`: drop leading and trailing whitespace.  (Embedded
structurally over the character list so that it evaluates by kernel
reduction; `String.trim` is extensionally the same operation.) -/
def pyStrip (s : String) : String :=
  ⟨((s.data.dropWhile Char.isWhitespace).reverse.dropWhile
      Char.isWhitespace).reverse⟩

/-- The effective team identifier of a row after column insertion (the
`Grupo` column is created holding `""` when absent) and
`.astype(str).str.strip()`. -/
def effGrupo (hasG : Bool) (r : RawRow) : String :=
  pyStrip (if hasG then r.grupo else "")

/-- The effective numeric activity values of a row after column insertion
(an absent activity column is created holding `0`) and
`pd.to_numeric(errors="coerce").fillna(0)`. -/
def effActs (hasA : Fin 5 → Bool) (r : RawRow) : Fin 5 → ℚ :=
  fun i => (if hasA i then r.acts i else Cell.num 0).toNum

/-- The rows surviving `df[df["Grupo"].isin(TEAMS)]`, with their effective
identifier and numeric activity values, in file order. -/
def cleanRows (t : RawTable) : List (String × (Fin 5 → ℚ)) :=
  (t.rows.map (fun r => (effGrupo t.hasGrupo r, effActs t.hasAct r))).filter
    (fun p => TEAMS.contains p.1)

/-- `df.drop_duplicates(subset="Grupo", keep="last")`: an entry survives iff
no later entry carries the same key. -/
def dropDupsLast : List (String × (Fin 5 → ℚ)) → List (String × (Fin 5 → ℚ))
  | [] => []
  | x :: xs =>
    if xs.any (fun y => y.1 == x.1) then dropDupsLast xs
    else x :: dropDupsLast xs

/-- Row total: `df[ACTIVITIES].sum(axis=1)`. -/
def sumActs (v : Fin 5 → ℚ) : ℚ := ((List.finRange 5).map v).sum

/-- One row of the canonical table: team, five numeric activity values, and
the derived total. -/
structure ScoreRow where
  grupo : String
  acts : Fin 5 → ℚ
  total : ℚ

instance : Inhabited ScoreRow := ⟨⟨"", fun _ => 0, 0⟩⟩

/-- The row the left-join against the base team list produces for team `g`:
the matching filtered row if one exists, otherwise all-zero values (the NaN
produced by the merge, sent to 0 by the defensive re-coercion). -/
def buildRow (found : Option (String × (Fin 5 → ℚ))) (g : String) : ScoreRow :=
  match found with
  | some p => ⟨g, p.2, sumActs p.2⟩
  | none => ⟨g, fun _ => 0, sumActs fun _ => 0⟩

/-- `_ensure_columns` in `app.py`: normalise a raw table into the canonical
six-row table, one row per team of `TEAMS` in canonical order. -/
def ensure_columns (t : RawTable) : List ScoreRow :=
  TEAMS.map fun g =>
    buildRow ((dropDupsLast (cleanRows t)).find? (fun p => p.1 == g)) g

/-- Python `int(x)` and numpy `.astype(int)` on a finite numeric value:
truncation toward zero.  `Int.tdiv` is T-division, which truncates toward
zero, and the denominator of a `Rat` is positive. -/
def pyInt (q : ℚ) : ℤ := q.num.tdiv q.den

/-- `medals` in `app.py`: the marker attached to a leaderboard position. -/
def medals (pos : ℕ) : String :=
  if pos = 1 then "🥇" else if pos = 2 then "🥈" else if pos = 3 then "🥉"
  else ""

/-- A row of the `ranking` frame: team code and integer-cast total. -/
structure RankRow where
  grupo : String
  total : ℤ
deriving DecidableEq

instance : Inhabited RankRow := ⟨⟨"", 0⟩⟩

/-- `ranking = df[["Grupo", "Total"]]` with `ranking["Total"].astype(int)`. -/
def rankingRows (df : List ScoreRow) : List RankRow :=
  df.map fun r => ⟨r.grupo, pyInt r.total⟩

/-- Insert a row into a descending-sorted list, in front of the first entry
whose total does not exceed it.  This is the stable insertion step of the
six-element `sort_values("Total", ascending=False)`. -/
def insertDesc (x : RankRow) : List RankRow → List RankRow
  | [] => [x]
  | y :: ys => if x.total ≥ y.total then x :: y :: ys else y :: insertDesc x ys

/-- `ranking.sort_values("Total", ascending=False)`: stable sort by total,
descending (earlier rows come first on equal totals). -/
def sortDesc : List RankRow → List RankRow
  | [] => []
  | x :: xs => insertDesc x (sortDesc xs)

/-- One displayed leaderboard row: medal marker, 1-based position, team
code, integer total. -/
structure LBEntry where
  medal : String
  pos : ℕ
  grupo : String
  total : ℤ
deriving DecidableEq

instance : Inhabited LBEntry := ⟨⟨"", 0, "", 0⟩⟩

/-- The `tab_rank` view: sort the ranking rows by total descending, insert
`Posición = 1..n` in sort order, and attach the medal markers. -/
def tab_rank (df : List ScoreRow) : List LBEntry :=
  (sortDesc (rankingRows df)).enum.map fun p =>
    ⟨medals (p.1 + 1), p.1 + 1, p.2.grupo, p.2.total⟩

/-- `fila = df[df["Grupo"] == sel].iloc[0]` of the `tab_team` view: the
first row carrying the selected team code (none when no row matches, which
makes `iloc[0]` raise). -/
def filaFor (df : List ScoreRow) (sel : String) : Option ScoreRow :=
  df.find? fun r => r.grupo == sel

/-- The Total metric of `tab_team`: `int(fila["Total"])`. -/
def tab_team_total (df : List ScoreRow) (sel : String) : Option ℤ :=
  (filaFor df sel).map fun r => pyInt r.total

/-- The `detalle` breakdown of `tab_team`: each activity label paired with
`int(fila[a])`. -/
def tab_team_detalle (df : List ScoreRow) (sel : String) :
    Option (List (String × ℤ)) :=
  (filaFor df sel).map fun r =>
    ACTIVITIES.zip ((List.finRange 5).map fun i => pyInt (r.acts i))

/-- The environment of one render cycle: which paths exist on disk and what
reading a file as CSV or as a spreadsheet yields (a raw table, or a parse
failure with its message). -/
structure FileSystem where
  pathExists : String → Bool
  readCsv : String → Except String RawTable
  readExcel : String → Except String RawTable

/-- The final path component, after the last separator (`os.path` basename
of the embedding's paths). -/
def baseName (cs : List Char) : List Char :=
  cs.foldl (fun acc c => if c = '/' then [] else acc ++ [c]) []

/-- Split a character list on the dots, keeping empty parts. -/
def splitOnDot : List Char → List (List Char)
  | [] => [[]]
  | c :: cs =>
    match splitOnDot cs with
    | [] => [[c]]
    | p :: ps => if c = '.' then [] :: p :: ps else (c :: p) :: ps

/-- `os.path.splitext(path)[1].lower()`: the extension of the final path
component, from its last dot, empty when the component has no dot or only
leading dots, lowercased. -/
def splitextLower (path : String) : String :=
  let base := baseName path.data
  let parts := splitOnDot base
  let ext : List Char :=
    if parts.length ≤ 1 then []
    else if parts.dropLast.all List.isEmpty then []
    else '.' :: parts.getLastD []
  ⟨ext.map Char.toLower⟩

/-- The two load-failure classes: the `ValueError` the code raises for an
unsupported extension (the spec's UnsupportedFormat), and any other
read/parse failure propagating out of the pandas readers (the spec's
LoadError), carrying the underlying cause text. -/
inductive LoadFailure where
  | unsupportedFormat (msg : String)
  | loadError (cause : String)
deriving DecidableEq

/-- The message `str(e)` of a load failure. -/
def LoadFailure.text : LoadFailure → String
  | .unsupportedFormat m => m
  | .loadError c => c

/-- `load_data` in `app.py`: dispatch on the lowercased extension, read the
file with the matching pandas reader, and normalise.  An unsupported
extension raises before anything is read, so no table is produced. -/
def load_data (fs : FileSystem) (path : String) :
    Except LoadFailure (List ScoreRow) :=
  if splitextLower path = ".csv" then
    match fs.readCsv path with
    | .ok raw => .ok (ensure_columns raw)
    | .error c => .error (.loadError c)
  else if splitextLower path = ".xlsx" ∨ splitextLower path = ".xls" then
    match fs.readExcel path with
    | .ok raw => .ok (ensure_columns raw)
    | .error c => .error (.loadError c)
  else .error (.unsupportedFormat "Formato no soportado. Use .csv o .xlsx")

/-- `find_data_path` in `app.py`: the first existing candidate file,
CSV preferred over XLSX. -/
def find_data_path (fs : FileSystem) : Option String :=
  CANDIDATE_PATHS.find? fs.pathExists

/-- The outcome of one render cycle of the script body: stopped at the
file-not-found warning, stopped at the load-error banner (no table
rendered), or the three tabs rendered over a canonical table. -/
inductive Render where
  | notFound
  | loadFailed (msg : String)
  | views (df : List ScoreRow)

/-- The script body of `app.py` after the sidebar: the custom path wins
whenever it is non-empty, otherwise the candidate list is consulted; a
missing path stops at the warning; then the table is loaded and the tabs
are rendered, any load failure stopping at the error banner. -/
def app (fs : FileSystem) (custom : String) : Render :=
  let dataPath := if custom ≠ "" then some custom else find_data_path fs
  match dataPath with
  | none => .notFound
  | some p =>
    if fs.pathExists p then
      match load_data fs p with
      | .ok df => .views df
      | .error e => .loadFailed ("Error al cargar el archivo: " ++ e.text)
    else .notFound

/-- Projection of a canonical table back to the expected raw column shape:
`Grupo` plus the five activity columns, every expected column present; the
derived `Total` column is dropped by the keep-filter on reentry. -/
def canonicalToRaw (rows : List ScoreRow) : RawTable :=
  ⟨true, fun _ => true,
    rows.map fun r => ⟨r.grupo, fun i => Cell.num (r.acts i)⟩⟩

/-- What "truncation toward zero" means, stated via the floor and ceiling:
round down when the value is nonnegative and up when it is negative.  This
definition follows the spec-side wording and is compared with the code-side
`pyInt`. -/
def truncTowardZero (q : ℚ) : ℤ := if 0 ≤ q then ⌊q⌋ else ⌈q⌉

instance : DecidableEq ScoreRow := fun a b =>
  decidable_of_iff (a.grupo = b.grupo ∧ a.acts = b.acts ∧ a.total = b.total)
    (by cases a; cases b; simp)

/-- Example input: two rows both labelled FV1 (the second with stray
whitespace), carrying different scores. -/
def dupTable : RawTable :=
  ⟨true, fun _ => true,
    [⟨"FV1", fun _ => Cell.num 3⟩, ⟨" FV1 ", fun _ => Cell.num 7⟩]⟩

/-- The activity scores [10, 20, 0, 0, 0] of the FV2 scenario. -/
def fv2Acts : Fin 5 → ℚ := fun i =>
  if i.val = 0 then 10 else if i.val = 1 then 20 else 0

/-- Example input: a file holding only team FV2 with scores
[10, 20, 0, 0, 0]; every other team is absent. -/
def fv2Table : RawTable :=
  ⟨true, fun _ => true, [⟨"FV2", fun i => Cell.num (fv2Acts i)⟩]⟩

/-- Example input whose single row carries a negative, but perfectly
numeric, score in every activity column. -/
def negTable : RawTable :=
  ⟨true, fun _ => true, [⟨"FV1", fun _ => Cell.num (-5)⟩]⟩

/-- Example input with no rows at all: every team row is filled with 0. -/
def emptyTable : RawTable := ⟨true, fun _ => true, []⟩

/-- Example canonical row with fractional stored scores (7/2 each,
Total 35/2). -/
def halfRow : ScoreRow := ⟨"FV1", fun _ => 7/2, 35/2⟩

/-- Example environment where every path exists but every read attempt
fails with a parse error. -/
def failFS : FileSystem :=
  ⟨fun _ => true, fun _ => .error "bad csv", fun _ => .error "bad xlsx"⟩

/-- Example environment where exactly the first conventional candidate
file exists. -/
def candFS : FileSystem :=
  ⟨fun p => p == "puntajes.csv", fun _ => .error "unread",
    fun _ => .error "unread"⟩

theorem buildRow_grupo (o : Option (String × (Fin 5 → ℚ))) (g : String) :
    (buildRow o g).grupo = g := by
  cases o <;> rfl

theorem buildRow_total (o : Option (String × (Fin 5 → ℚ))) (g : String) :
    (buildRow o g).total = sumActs (buildRow o g).acts := by
  cases o <;> rfl

theorem ensure_columns_map_grupo (t : RawTable) :
    (ensure_columns t).map ScoreRow.grupo = TEAMS := by
  simp [ensure_columns, List.map_map, Function.comp_def, buildRow_grupo]

theorem ensure_columns_length (t : RawTable) :
    (ensure_columns t).length = 6 := by
  simp [ensure_columns, TEAMS]

theorem pyInt_eq_truncTowardZero (q : ℚ) : pyInt q = truncTowardZero q := by
  unfold pyInt truncTowardZero
  split
  · rename_i h
    rw [Int.tdiv_eq_ediv (Rat.num_nonneg.mpr h) (Int.ofNat_nonneg q.den),
      Rat.floor_def]
  · rename_i h
    have hneg : q.num = -(-q).num := by simp
    rw [hneg, Int.neg_tdiv,
      Int.tdiv_eq_ediv (Rat.num_nonneg.mpr (by linarith [not_le.mp h] : (0:ℚ) ≤ -q))
        (Int.ofNat_nonneg q.den)]
    have hden : ((-q).den : ℤ) = (q.den : ℤ) := by simp
    rw [← hden, ← Rat.floor_def]
    rw [show (⌈q⌉ : ℤ) = -⌊-q⌋ by rw [Int.floor_neg]; ring]

/-- C1: for every raw input table, the output of the normaliser
(`_ensure_columns`) has exactly six rows, one per team of the fixed set
FV1..FV6, in the fixed canonical team order. -/
theorem ensure_columns_six_rows_fixed_order (t : RawTable) :
    (ensure_columns t).length = 6 ∧
      (ensure_columns t).map ScoreRow.grupo = TEAMS :=
  ⟨ensure_columns_length t, ensure_columns_map_grupo t⟩

theorem mem_of_mem_dropDupsLast {p : String × (Fin 5 → ℚ)}
    {l : List (String × (Fin 5 → ℚ))} (h : p ∈ dropDupsLast l) : p ∈ l := by
  induction l with
  | nil => simp [dropDupsLast] at h
  | cons x xs ih =>
    rw [dropDupsLast] at h
    split at h
    · exact List.mem_cons_of_mem x (ih h)
    · rcases List.mem_cons.mp h with h | h
      · exact h ▸ List.mem_cons_self x xs
      · exact List.mem_cons_of_mem x (ih h)

/-- Looking a key up in the deduplicated list (which the left-join does)
finds exactly the last occurrence of that key in the original list. -/
theorem dropDupsLast_find?_eq_reverse (l : List (String × (Fin 5 → ℚ)))
    (g : String) :
    (dropDupsLast l).find? (fun p => p.1 == g) =
      l.reverse.find? (fun p => p.1 == g) := by
  induction l with
  | nil => rfl
  | cons x xs ih =>
    rw [List.reverse_cons, List.find?_append, dropDupsLast]
    by_cases hx : x.1 = g
    · by_cases hdup : xs.any (fun y => y.1 == x.1)
      · rw [if_pos hdup, ih]
        rcases List.any_eq_true.mp hdup with ⟨y, hy, hyx⟩
        have hsome : (xs.reverse.find? (fun p => p.1 == g)).isSome := by
          rw [List.find?_isSome]
          refine ⟨y, List.mem_reverse.mpr hy, ?_⟩
          have hyx2 : y.1 = x.1 := by simpa using hyx
          simp [hyx2, hx]
        rcases Option.isSome_iff_exists.mp hsome with ⟨v, hv⟩
        rw [hv, Option.or_some]
      · rw [if_neg hdup]
        have hnone : xs.reverse.find? (fun p => p.1 == g) = none := by
          rw [List.find?_eq_none]
          intro p hp
          have hpxs : p ∈ xs := List.mem_reverse.mp hp
          have hne : ¬ p.1 = x.1 := fun hpx =>
            hdup (List.any_eq_true.mpr ⟨p, hpxs, by simp [hpx]⟩)
          simp [hx ▸ hne]
        rw [hnone, Option.none_or,
          List.find?_cons_of_pos _ (by simp [hx]),
          List.find?_cons_of_pos _ (by simp [hx])]
    · have hxnone : [x].find? (fun p => p.1 == g) = none := by
        rw [List.find?_eq_none]
        intro p hp
        rw [List.mem_singleton.mp hp]
        simp [hx]
      rw [hxnone, Option.or_none]
      split
      · exact ih
      · rw [List.find?_cons_of_neg _ (by simp [hx])]
        exact ih

/-- The canonical-table row the normaliser emits for a valid team code `g`
is exactly the row the left-join builds from the deduplicated lookup. -/
theorem ensure_columns_find?_eq (t : RawTable) (g : String)
    (hg : g ∈ TEAMS) :
    (ensure_columns t).find? (fun r => r.grupo == g) =
      some (buildRow
        ((dropDupsLast (cleanRows t)).find? (fun p => p.1 == g)) g) := by
  simp only [TEAMS, List.mem_cons, List.mem_singleton, List.not_mem_nil,
    or_false] at hg
  rcases hg with rfl | rfl | rfl | rfl | rfl | rfl <;>
    simp [ensure_columns, TEAMS, buildRow_grupo]

/-- C4: when several (trimmed, valid) input rows carry the same team code,
the canonical-table row for that team carries exactly the activity values
of the last such row in file order; value rows of earlier duplicates do not
survive.  (`cleanRows t` lists the filtered rows in file order, so the
first match in its reverse is the last occurrence.) -/
theorem ensure_columns_keeps_last_duplicate (t : RawTable) (g : String)
    (hg : g ∈ TEAMS) (p : String × (Fin 5 → ℚ))
    (hlast : (cleanRows t).reverse.find? (fun q => q.1 == g) = some p) :
    (ensure_columns t).find? (fun r => r.grupo == g) =
      some ⟨g, p.2, sumActs p.2⟩ := by
  rw [ensure_columns_find?_eq t g hg, dropDupsLast_find?_eq_reverse, hlast]
  rfl

/-- Witness for C4: on the concrete two-duplicate input, only the later
row's scores (all 7) appear for FV1. -/
theorem ensure_columns_keeps_last_duplicate_witness :
    (ensure_columns dupTable).find? (fun r => r.grupo == "FV1") =
      some ⟨"FV1", fun _ => 7, sumActs fun _ => 7⟩ :=
  ensure_columns_keeps_last_duplicate dupTable "FV1" (by decide)
    ⟨"FV1", fun _ => 7⟩ (by with_unfolding_all decide)

/-- C5: every team of the fixed set that is absent from the filtered input
appears in the canonical table with all five activity values 0 (hence
Total 0); and on the concrete input holding only FV2 with scores
[10, 20, 0, 0, 0], the output has FV2 with Total 30, every other team with
Total 0, and six rows in total. -/
theorem ensure_columns_absent_team_zero :
    (∀ (t : RawTable) (g : String), g ∈ TEAMS →
      (∀ p ∈ cleanRows t, p.1 ≠ g) →
      (ensure_columns t).find? (fun r => r.grupo == g) =
        some ⟨g, fun _ => 0, sumActs fun _ => 0⟩) ∧
    (ensure_columns fv2Table).map (fun r => (r.grupo, r.total)) =
      [("FV1", 0), ("FV2", 30), ("FV3", 0), ("FV4", 0), ("FV5", 0),
        ("FV6", 0)] := by
  constructor
  · intro t g hg habs
    rw [ensure_columns_find?_eq t g hg, dropDupsLast_find?_eq_reverse]
    have hnone : (cleanRows t).reverse.find? (fun q => q.1 == g) = none := by
      rw [List.find?_eq_none]
      intro p hp
      simp only [beq_iff_eq]
      exact habs p (List.mem_reverse.mp hp)
    rw [hnone]
    rfl
  · with_unfolding_all decide

/-- Witness for C5: FV5 is absent from the FV2-only input, and its
canonical row is all-zero. -/
theorem ensure_columns_absent_team_zero_witness :
    (∀ p ∈ cleanRows fv2Table, p.1 ≠ "FV5") ∧
    (ensure_columns fv2Table).find? (fun r => r.grupo == "FV5") =
      some ⟨"FV5", fun _ => 0, sumActs fun _ => 0⟩ :=
  ⟨by with_unfolding_all decide,
    ensure_columns_absent_team_zero.1 fv2Table "FV5" (by decide)
      (by with_unfolding_all decide)⟩

/-- C2 counterexample: the claim "every activity value in the output is
≥ 0 and every Total is ≥ 0" fails on the concrete input whose FV1 row
holds the numeric value -5 in every activity column: -5 parses fine, is
kept, and the row's Total is -25 < 0. -/
theorem ensure_columns_negative_value_cex :
    ∃ r ∈ ensure_columns negTable, r.acts 0 < 0 ∧ r.total < 0 := by
  with_unfolding_all decide

/-- C2 (amended): every activity value of the output is numeric, any cell
that fails to parse contributing 0 (`Cell.nan.toNum = 0`); and whenever
every numeric activity cell of the raw input is nonnegative, every output
activity value and every Total is ≥ 0.  (Unrestricted the claim is false:
a negative numeric input survives normalisation, see the counterexample.) -/
theorem ensure_columns_values_nonneg_of_nonneg_input :
    Cell.nan.toNum = 0 ∧
    ∀ t : RawTable, (∀ r ∈ t.rows, ∀ i : Fin 5, 0 ≤ (r.acts i).toNum) →
      ∀ row ∈ ensure_columns t, (∀ i, 0 ≤ row.acts i) ∧ 0 ≤ row.total := by
  refine ⟨rfl, ?_⟩
  intro t h row hrow
  simp only [ensure_columns] at hrow
  rcases List.mem_map.mp hrow with ⟨g, hgT, rfl⟩
  have hacts : ∀ i, 0 ≤
      (buildRow ((dropDupsLast (cleanRows t)).find? (fun p => p.1 == g))
        g).acts i := by
    cases hfind : (dropDupsLast (cleanRows t)).find? (fun p => p.1 == g) with
    | none => intro i; simp [buildRow]
    | some p =>
      intro i
      have hpmem : p ∈ cleanRows t :=
        mem_of_mem_dropDupsLast (List.mem_of_find?_eq_some hfind)
      simp only [cleanRows] at hpmem
      rcases List.mem_filter.mp hpmem with ⟨hpmap, _⟩
      rcases List.mem_map.mp hpmap with ⟨r, hr, rfl⟩
      simp only [buildRow]
      unfold effActs
      split
      · exact h r hr i
      · simp [Cell.toNum]
  refine ⟨hacts, ?_⟩
  rw [buildRow_total]
  unfold sumActs
  apply List.sum_nonneg
  intro x hx
  rcases List.mem_map.mp hx with ⟨i, _, rfl⟩
  exact hacts i

theorem cleanRows_canonicalToRaw (rows : List ScoreRow)
    (h : ∀ r ∈ rows, r.grupo ∈ TEAMS) :
    cleanRows (canonicalToRaw rows) = rows.map fun r => (r.grupo, r.acts) := by
  have hstrip : ∀ g ∈ TEAMS, pyStrip g = g := by decide
  have hmap : ((rows.map fun r : ScoreRow =>
        RawRow.mk r.grupo fun i => Cell.num (r.acts i)).map
          fun r => (effGrupo true r, effActs (fun _ => true) r)) =
      rows.map fun r => (r.grupo, r.acts) := by
    rw [List.map_map]
    apply List.map_congr_left
    intro r hr
    show (pyStrip r.grupo, fun i => (Cell.num (r.acts i)).toNum) = _
    rw [hstrip r.grupo (h r hr)]
    rfl
  simp only [cleanRows, canonicalToRaw]
  rw [hmap, List.filter_eq_self.mpr]
  intro p hp
  rcases List.mem_map.mp hp with ⟨r, hr, rfl⟩
  simpa [List.elem_eq_mem] using h r hr

theorem dropDupsLast_of_nodup_keys (l : List (String × (Fin 5 → ℚ)))
    (h : (l.map Prod.fst).Nodup) : dropDupsLast l = l := by
  induction l with
  | nil => rfl
  | cons x xs ih =>
    rw [List.map_cons, List.nodup_cons] at h
    rw [dropDupsLast, if_neg, ih h.2]
    intro hany
    rcases List.any_eq_true.mp hany with ⟨y, hy, hyx⟩
    have hyx2 : y.1 = x.1 := by simpa using hyx
    exact h.1 (List.mem_map.mpr ⟨y, hy, hyx2⟩)

/-- In a list whose keys are pairwise distinct, looking up the key of the
entry at index `i` finds exactly that entry. -/
theorem find?_key_of_nodup (l : List (String × (Fin 5 → ℚ))) (i : ℕ)
    (hi : i < l.length) (h : (l.map Prod.fst).Nodup) :
    l.find? (fun p => p.1 == l[i].1) = some l[i] := by
  induction l generalizing i with
  | nil => simp at hi
  | cons x xs ih =>
    cases i with
    | zero => simp
    | succ n =>
      rw [List.map_cons, List.nodup_cons] at h
      have hi2 : n < xs.length := by simpa using hi
      have hget : (x :: xs)[n + 1] = xs[n] := rfl
      rw [hget, List.find?_cons_of_neg, ih n hi2 h.2]
      simp only [beq_iff_eq]
      intro hx
      exact h.1 (List.mem_map.mpr ⟨xs[n], List.getElem_mem hi2, hx.symm⟩)

/-- Renormalising the raw projection of any well-formed canonical table
(six team rows in canonical order, totals derived from the activity
values) reproduces that table unchanged. -/
theorem ensure_columns_canonicalToRaw (rows : List ScoreRow)
    (hg : rows.map ScoreRow.grupo = TEAMS)
    (ht : ∀ r ∈ rows, r.total = sumActs r.acts) :
    ensure_columns (canonicalToRaw rows) = rows := by
  have hmem : ∀ r ∈ rows, r.grupo ∈ TEAMS := by
    intro r hr
    rw [← hg]
    exact List.mem_map_of_mem _ hr
  have hclean := cleanRows_canonicalToRaw rows hmem
  have hkeys : (((rows.map fun r => (r.grupo, r.acts)).map Prod.fst)).Nodup := by
    rw [List.map_map]
    have hcomp : (Prod.fst ∘ fun r : ScoreRow => (r.grupo, r.acts)) =
        ScoreRow.grupo := rfl
    rw [hcomp, hg]
    decide
  unfold ensure_columns
  rw [hclean, dropDupsLast_of_nodup_keys _ hkeys, ← hg, List.map_map]
  apply List.ext_get (by simp)
  intro n h1 h2
  simp only [List.get_eq_getElem, List.getElem_map, Function.comp_apply]
  have hn : n < (rows.map fun r => (r.grupo, r.acts)).length := by
    simpa using h2
  have hkey : (fun p : String × (Fin 5 → ℚ) => p.1 == rows[n].grupo) =
      fun p => p.1 == (rows.map fun r => (r.grupo, r.acts))[n].1 := by
    simp
  rw [hkey, find?_key_of_nodup _ n hn hkeys]
  simp only [List.getElem_map, buildRow]
  rw [← ht rows[n] (List.getElem_mem h2)]

/-- C8: `normalize` is idempotent: projecting a canonical table back to the
expected raw column shape (`canonicalToRaw`, which keeps `Grupo` and the
five activity columns and drops the derived `Total`) and normalising again
reproduces the same canonical table.  In this embedding `ensure_columns`
is a Lean function of its input alone, so it reads and mutates no external
state. -/
theorem ensure_columns_idempotent (t : RawTable) :
    ensure_columns (canonicalToRaw (ensure_columns t)) = ensure_columns t := by
  apply ensure_columns_canonicalToRaw
  · exact ensure_columns_map_grupo t
  · intro r hr
    simp only [ensure_columns] at hr
    rcases List.mem_map.mp hr with ⟨g, _, rfl⟩
    exact buildRow_total _ _

/-- Witness for C2 (amended) at the FV2 scenario input: its cells are all
nonnegative, so the FV2 output row has nonnegative values and Total. -/
theorem ensure_columns_values_nonneg_of_nonneg_input_witness :
    (∀ i, (0:ℚ) ≤ (ScoreRow.mk "FV2" (fun i => fv2Acts i) 30).acts i) ∧
      (0:ℚ) ≤ (ScoreRow.mk "FV2" (fun i => fv2Acts i) 30).total :=
  ensure_columns_values_nonneg_of_nonneg_input.2 fv2Table
    (by with_unfolding_all decide)
    (ScoreRow.mk "FV2" (fun i => fv2Acts i) 30)
    (by with_unfolding_all decide)

theorem insertDesc_perm (x : RankRow) (l : List RankRow) :
    List.Perm (insertDesc x l) (x :: l) := by
  induction l with
  | nil => exact List.Perm.refl _
  | cons y ys ih =>
    rw [insertDesc]
    split
    · exact List.Perm.refl _
    · exact (List.Perm.cons y ih).trans (List.Perm.swap x y ys)

theorem sortDesc_perm (l : List RankRow) : List.Perm (sortDesc l) l := by
  induction l with
  | nil => exact List.Perm.refl _
  | cons x xs ih =>
    rw [sortDesc]
    exact (insertDesc_perm x (sortDesc xs)).trans (List.Perm.cons x ih)

theorem insertDesc_pairwise {x : RankRow} {l : List RankRow}
    (h : l.Pairwise fun a b => b.total ≤ a.total) :
    (insertDesc x l).Pairwise fun a b => b.total ≤ a.total := by
  induction l with
  | nil => simp [insertDesc]
  | cons y ys ih =>
    rw [List.pairwise_cons] at h
    rw [insertDesc]
    split
    · rename_i hxy
      rw [List.pairwise_cons]
      refine ⟨?_, List.pairwise_cons.mpr h⟩
      intro z hz
      rcases List.mem_cons.mp hz with rfl | hz
      · exact hxy
      · exact le_trans (h.1 z hz) hxy
    · rename_i hxy
      rw [List.pairwise_cons]
      refine ⟨?_, ih h.2⟩
      intro z hz
      rcases List.mem_cons.mp ((insertDesc_perm x ys).mem_iff.mp hz)
        with rfl | hz
      · exact le_of_lt (lt_of_not_ge hxy)
      · exact h.1 z hz

theorem sortDesc_pairwise (l : List RankRow) :
    (sortDesc l).Pairwise fun a b => b.total ≤ a.total := by
  induction l with
  | nil => simp [sortDesc]
  | cons x xs ih =>
    rw [sortDesc]
    exact insertDesc_pairwise ih

/-- A row inserted by `insertDesc` lands in front of every entry with the
same total: the skipped prefix consists of strictly larger totals only. -/
theorem filter_insertDesc (x : RankRow) (l : List RankRow) (k : ℤ) :
    (insertDesc x l).filter (fun r => r.total == k) =
      if x.total = k then x :: l.filter (fun r => r.total == k)
      else l.filter (fun r => r.total == k) := by
  induction l with
  | nil =>
    rw [insertDesc, List.filter_cons]
    by_cases hx : x.total = k <;> simp [hx]
  | cons y ys ih =>
    rw [insertDesc]
    split
    · rename_i hxy
      rw [List.filter_cons]
      by_cases hx : x.total = k <;> simp [hx]
    · rename_i hxy
      have hlt : x.total < y.total := lt_of_not_ge hxy
      rw [List.filter_cons, List.filter_cons, ih]
      by_cases hx : x.total = k
      · have hy : ¬ y.total = k := by omega
        simp [hx, hy]
      · by_cases hy : y.total = k <;> simp [hx, hy]

/-- Stability of the leaderboard sort: for every total value, the rows
carrying that total appear in the output in exactly their input order. -/
theorem filter_sortDesc (l : List RankRow) (k : ℤ) :
    (sortDesc l).filter (fun r => r.total == k) =
      l.filter (fun r => r.total == k) := by
  induction l with
  | nil => rfl
  | cons x xs ih =>
    rw [sortDesc, filter_insertDesc, List.filter_cons, ih]
    by_cases hx : x.total = k <;> simp [hx]

/-- C3: the leaderboard rows are sorted by the displayed Total column in
descending order, and the sort is stable with respect to the canonical
team order: for every total value `k`, the rows with Total `k` appear in
exactly the order of the underlying canonical table (FV1..FV6).  The
displayed `tab_rank` rows are precisely the sorted rows, in order. -/
theorem tab_rank_sorted_desc_stable (t : RawTable) :
    ((sortDesc (rankingRows (ensure_columns t))).Pairwise
      fun a b => b.total ≤ a.total) ∧
    (∀ k : ℤ, (sortDesc (rankingRows (ensure_columns t))).filter
        (fun r => r.total == k) =
      (rankingRows (ensure_columns t)).filter (fun r => r.total == k)) ∧
    (tab_rank (ensure_columns t)).map (fun e => RankRow.mk e.grupo e.total) =
      sortDesc (rankingRows (ensure_columns t)) := by
  refine ⟨sortDesc_pairwise _, fun k => filter_sortDesc _ k, ?_⟩
  rw [tab_rank, List.map_map]
  exact List.enum_map_snd _

theorem medals_spec (p : ℕ) :
    (medals p ≠ "" ↔ p = 1 ∨ p = 2 ∨ p = 3) ∧
    (p = 1 → medals p = "🥇") ∧ (p = 2 → medals p = "🥈") ∧
    (p = 3 → medals p = "🥉") := by
  unfold medals
  by_cases h1 : p = 1 <;> by_cases h2 : p = 2 <;> by_cases h3 : p = 3 <;>
    simp [h1, h2, h3]

/-- C6: in the leaderboard over every canonical table, the row at
Position 1 carries the maximum Total among all leaderboard rows, and the
medal marker of a row is non-empty iff its Position is 1, 2 or 3 (gold for
1, silver for 2, bronze for 3). -/
theorem tab_rank_top_total_and_medals (t : RawTable) (e : LBEntry)
    (he : e ∈ tab_rank (ensure_columns t)) :
    ((tab_rank (ensure_columns t)).headI.pos = 1 ∧
      e.total ≤ (tab_rank (ensure_columns t)).headI.total) ∧
    (e.medal ≠ "" ↔ e.pos = 1 ∨ e.pos = 2 ∨ e.pos = 3) ∧
    (e.pos = 1 → e.medal = "🥇") ∧
    (e.pos = 2 → e.medal = "🥈") ∧
    (e.pos = 3 → e.medal = "🥉") := by
  have hlen : (sortDesc (rankingRows (ensure_columns t))).length = 6 := by
    rw [(sortDesc_perm _).length_eq]
    simp [rankingRows, ensure_columns_length]
  have hpw := sortDesc_pairwise (rankingRows (ensure_columns t))
  rcases hsd : sortDesc (rankingRows (ensure_columns t)) with _ | ⟨s, rest⟩
  · rw [hsd] at hlen
    simp at hlen
  · rw [hsd, List.pairwise_cons] at hpw
    simp only [tab_rank] at he ⊢
    rcases List.mem_map.mp he with ⟨p, hp, rfl⟩
    have hmem : p.2 ∈ sortDesc (rankingRows (ensure_columns t)) :=
      List.snd_mem_of_mem_enum hp
    constructor
    · rw [hsd, List.enum_cons, List.map_cons]
      refine ⟨rfl, ?_⟩
      show p.2.total ≤ s.total
      rw [hsd] at hmem
      rcases List.mem_cons.mp hmem with heq | hm
      · rw [heq]
      · exact hpw.1 _ hm
    · exact ⟨(medals_spec (p.1 + 1)).1, (medals_spec (p.1 + 1)).2.1,
        (medals_spec (p.1 + 1)).2.2.1, (medals_spec (p.1 + 1)).2.2.2⟩

/-- Witness for C6 on the empty input (all totals 0): the fourth
leaderboard entry (Position 4, team FV4) has no medal and a total bounded
by the Position-1 total. -/
theorem tab_rank_top_total_and_medals_witness :
    ((tab_rank (ensure_columns emptyTable)).headI.pos = 1 ∧
      (LBEntry.mk "" 4 "FV4" 0).total ≤
        (tab_rank (ensure_columns emptyTable)).headI.total) ∧
    ((LBEntry.mk "" 4 "FV4" 0).medal ≠ "" ↔
      (LBEntry.mk "" 4 "FV4" 0).pos = 1 ∨
        (LBEntry.mk "" 4 "FV4" 0).pos = 2 ∨
        (LBEntry.mk "" 4 "FV4" 0).pos = 3) ∧
    ((LBEntry.mk "" 4 "FV4" 0).pos = 1 →
      (LBEntry.mk "" 4 "FV4" 0).medal = "🥇") ∧
    ((LBEntry.mk "" 4 "FV4" 0).pos = 2 →
      (LBEntry.mk "" 4 "FV4" 0).medal = "🥈") ∧
    ((LBEntry.mk "" 4 "FV4" 0).pos = 3 →
      (LBEntry.mk "" 4 "FV4" 0).medal = "🥉") :=
  tab_rank_top_total_and_medals emptyTable ⟨"", 4, "FV4", 0⟩
    (by with_unfolding_all decide)

/-- C9: every score displayed by the team-detail view (the Total metric
and the per-activity breakdown) and every leaderboard Total is the
`int()` / `.astype(int)` conversion of the stored value, and that
conversion truncates toward zero (floor for nonnegative stored values,
ceiling for negative ones). -/
theorem displayed_scores_truncate_toward_zero :
    (∀ q : ℚ, pyInt q = truncTowardZero q) ∧
    (∀ (df : List ScoreRow) (sel : String) (r : ScoreRow),
      filaFor df sel = some r →
        tab_team_total df sel = some (truncTowardZero r.total) ∧
        tab_team_detalle df sel =
          some (ACTIVITIES.zip ((List.finRange 5).map fun i =>
            truncTowardZero (r.acts i)))) ∧
    (∀ df : List ScoreRow,
      rankingRows df = df.map fun r => ⟨r.grupo, truncTowardZero r.total⟩) := by
  refine ⟨pyInt_eq_truncTowardZero, ?_, ?_⟩
  · intro df sel r hr
    rw [tab_team_total, tab_team_detalle, hr]
    exact ⟨by simp [pyInt_eq_truncTowardZero],
      by simp [pyInt_eq_truncTowardZero]⟩
  · intro df
    rw [rankingRows]
    apply List.map_congr_left
    intro r _
    rw [pyInt_eq_truncTowardZero]

/-- Witness for C9 on a single-row table with fractional scores 7/2 and
Total 35/2: the displayed values are their truncations. -/
theorem displayed_scores_truncate_toward_zero_witness :
    tab_team_total [halfRow] "FV1" = some (truncTowardZero halfRow.total) ∧
    tab_team_detalle [halfRow] "FV1" =
      some (ACTIVITIES.zip ((List.finRange 5).map fun i =>
        truncTowardZero (halfRow.acts i))) :=
  displayed_scores_truncate_toward_zero.2.1 [halfRow] "FV1" halfRow
    (by with_unfolding_all decide)

/-- C7: loading a path whose extension is outside the accepted set
{.csv, .xlsx, .xls} yields the UnsupportedFormat error and no table; a
failing read of a supported format yields a LoadError carrying the
underlying cause; and in either case the render cycle over a non-empty
existing custom path stops at the error banner (`Render.loadFailed`, so
no partial table is shown). -/
theorem load_data_error_handling :
    (∀ (fs : FileSystem) (path : String),
      splitextLower path ≠ ".csv" → splitextLower path ≠ ".xlsx" →
      splitextLower path ≠ ".xls" →
      load_data fs path =
        .error (.unsupportedFormat "Formato no soportado. Use .csv o .xlsx")) ∧
    (∀ (fs : FileSystem) (path c : String),
      splitextLower path = ".csv" → fs.readCsv path = .error c →
      load_data fs path = .error (.loadError c)) ∧
    (∀ (fs : FileSystem) (path c : String),
      splitextLower path = ".xlsx" ∨ splitextLower path = ".xls" →
      fs.readExcel path = .error c →
      load_data fs path = .error (.loadError c)) ∧
    (∀ (fs : FileSystem) (custom : String) (e : LoadFailure),
      custom ≠ "" → fs.pathExists custom = true →
      load_data fs custom = .error e →
      app fs custom =
        .loadFailed ("Error al cargar el archivo: " ++ e.text)) := by
  refine ⟨?_, ?_, ?_, ?_⟩
  · intro fs path h1 h2 h3
    rw [load_data, if_neg h1, if_neg (not_or.mpr ⟨h2, h3⟩)]
  · intro fs path c h hc
    rw [load_data, if_pos h, hc]
  · intro fs path c h hc
    have h1 : splitextLower path ≠ ".csv" := by
      rcases h with h | h <;> rw [h] <;> decide
    rw [load_data, if_neg h1, if_pos h, hc]
  · intro fs custom e hne hex hload
    simp only [app, if_pos hne, hex, hload, if_true]

/-- Witness for C7: in an environment where every path exists but nothing
parses, rendering with the custom path `datos.txt` stops at the error
banner carrying the unsupported-format message. -/
theorem load_data_error_handling_witness :
    app failFS "datos.txt" =
      .loadFailed ("Error al cargar el archivo: " ++
        (LoadFailure.unsupportedFormat
          "Formato no soportado. Use .csv o .xlsx").text) :=
  load_data_error_handling.2.2.2 failFS "datos.txt"
    (.unsupportedFormat "Formato no soportado. Use .csv o .xlsx")
    (by decide) rfl
    (load_data_error_handling.1 failFS "datos.txt"
      (by decide) (by decide) (by decide))

/-- C10: a non-empty custom path bypasses the conventional candidate
filenames entirely — the render outcome depends only on the environment's
behaviour at the custom path — and a non-existent custom path stops at
the file-not-found warning instead of falling back to the candidates. -/
theorem custom_path_never_falls_back :
    (∀ (fs fs2 : FileSystem) (custom : String), custom ≠ "" →
      fs.pathExists custom = fs2.pathExists custom →
      fs.readCsv custom = fs2.readCsv custom →
      fs.readExcel custom = fs2.readExcel custom →
      app fs custom = app fs2 custom) ∧
    (∀ (fs : FileSystem) (custom : String), custom ≠ "" →
      fs.pathExists custom = false → app fs custom = Render.notFound) := by
  constructor
  · intro fs fs2 custom hne he hc hx
    have hload : load_data fs custom = load_data fs2 custom := by
      rw [load_data, load_data, hc, hx]
    simp only [app, if_pos hne, he, hload]
  · intro fs custom hne hex
    simp only [app, if_pos hne, hex]
    rfl

/-- Witness for C10: with only `puntajes.csv` on disk (so the candidate
scan would succeed), a non-existent custom path still stops at the
file-not-found warning. -/
theorem custom_path_never_falls_back_witness :
    find_data_path candFS = some "puntajes.csv" ∧
    app candFS "no/existe.csv" = Render.notFound :=
  ⟨by decide,
    custom_path_never_falls_back.2 candFS "no/existe.csv" (by decide)
      (by decide)⟩
